import Mathlib

/-!
Shallow embedding of the ROME host-side client (repository `rome`,
directory `software/src`): the line transport and message classifier
(`device.rs`), the synchronization handshake and connection check
(`device.rs`), the chunked read/write engine (`data_ops.rs`) and the
write-verification pass (`main.rs`).

Protocol lines are modelled as `List Nat` of byte values (the protocol is
ASCII; `10` is the line terminator, which the transport strips).  The
serial port is modelled by a script: a list of inbound lines (for `sync`,
timestamped with the wall-clock instant at which the line completes).
Each operation returns, besides its result, the list of commands it sent
on the wire, so that "no bytes are issued" is a provable statement.
-/

namespace Rome

/-- Uppercase hexadecimal digit byte for a nibble, as produced by Rust's
`{:X}` formatting (`data_ops.rs` uses `{:04X}` / `{:02X}`). -/
def toHexDigit (n : Nat) : Nat :=
  if n < 10 then 48 + n else 55 + n

/-- Two-digit uppercase hex encoding of a byte, Rust `{:02X}` (values are
always below 256, so two digits are exact). -/
def hex2 (n : Nat) : List Nat :=
  [toHexDigit (n / 16 % 16), toHexDigit (n % 16)]

/-- Four-digit uppercase hex encoding of a 16-bit address, Rust `{:04X}`
(addresses are reduced modulo 2^16 before formatting, so four digits are
exact). -/
def hex4 (n : Nat) : List Nat :=
  [toHexDigit (n / 4096 % 16), toHexDigit (n / 256 % 16),
   toHexDigit (n / 16 % 16), toHexDigit (n % 16)]

/-- Hex value of one byte, as Rust's `char::to_digit(16)`: decimal digits,
lowercase and uppercase letters; anything else is not a digit. -/
def hexDigitVal (c : Nat) : Option Nat :=
  if 48 ≤ c ∧ c ≤ 57 then some (c - 48)
  else if 97 ≤ c ∧ c ≤ 102 then some (c - 87)
  else if 65 ≤ c ∧ c ≤ 70 then some (c - 55)
  else none

/-- Digit-accumulation loop of Rust `u8::from_str_radix(_, 16)` for a
non-negative parse: `result = result * 16 + digit`, failing on a non-digit
or on u8 overflow (checked_mul/checked_add). -/
def parseHexU8Pos : List Nat → Nat → Option Nat
  | [], acc => some acc
  | c :: cs, acc =>
    match hexDigitVal c with
    | none => none
    | some d => if acc * 16 + d ≤ 255 then parseHexU8Pos cs (acc * 16 + d) else none

/-- Digit-accumulation loop of Rust `u8::from_str_radix(_, 16)` after a
leading minus sign: `result = result * 16 - digit` with checked
subtraction, so for an unsigned type only strings of zeros succeed. -/
def parseHexU8Neg : List Nat → Nat → Option Nat
  | [], acc => some acc
  | c :: cs, acc =>
    match hexDigitVal c with
    | none => none
    | some d =>
      if acc * 16 + d ≤ 255 ∧ d ≤ acc * 16 then parseHexU8Neg cs (acc * 16 - d)
      else none

/-- Rust `u8::from_str_radix(s, 16)` on the bytes of `s` (`data_ops.rs`
line 69, after `from_utf8`).  Faithful to the standard library: an
optional leading sign byte (`+` = 43, `-` = 45) is accepted, the digit
string after it must be non-empty, and every remaining byte must be a hex
digit.  A chunk containing a byte ≥ 128 fails here exactly as in the
source, where it either fails UTF-8 validation or decodes to a non-digit
character. -/
def rustU8FromStrRadix16 : List Nat → Option Nat
  | [] => none
  | 43 :: rest => if rest = [] then none else parseHexU8Pos rest 0
  | 45 :: rest => if rest = [] then none else parseHexU8Neg rest 0
  | s => parseHexU8Pos s 0

/-- Whitespace test used by Rust `str::trim` restricted to single-byte
(ASCII) characters: tab, line feed, vertical tab, form feed, carriage
return, space.  Device lines hold ASCII, so this matches the source's
`from_utf8_lossy(..).trim()`. -/
def isRustWhitespace (c : Nat) : Bool :=
  c = 9 || c = 10 || c = 11 || c = 12 || c = 13 || c = 32

/-- Rust `str::trim` on a byte line: strip leading and trailing
whitespace. -/
def rustTrim (l : List Nat) : List Nat :=
  ((l.dropWhile isRustWhitespace).reverse.dropWhile isRustWhitespace).reverse

/-- Failures produced by the line transport and message classifier
(`device.rs`): a read timeout from the port, the `receive_line_raw`
length-limit error, and a device-reported `!` error line (carrying the
trimmed remainder of the line). -/
inductive DevFailure where
  | timeout : DevFailure
  | lineTooLong : Nat → DevFailure
  | deviceError : List Nat → DevFailure
deriving DecidableEq

/-- Embedding of `Device::receive` (`device.rs` lines 112-134) over a
script of completed inbound lines (terminator already stripped), fusing
in the line-level behaviour of `receive_line_raw`: a line longer than
`limit` fails with the limit error, an exhausted script is a read
timeout.  Classification by first byte as in the source: an empty line is
re-read, `#` (35) is discarded and reading continues, `!` (33) fails the
operation with the trimmed remainder, and any other line is returned
whole together with the unconsumed rest of the script. -/
def receive (limit : Nat) : List (List Nat) → Except DevFailure (List Nat × List (List Nat))
  | [] => .error .timeout
  | l :: rest =>
    if limit < l.length then .error (.lineTooLong limit)
    else
      match l with
      | [] => receive limit rest
      | c :: tail =>
        if c = 35 then receive limit rest
        else if c = 33 then .error (.deviceError (rustTrim tail))
        else .ok (c :: tail, rest)

/-- Mutable transport state of `Device` relevant to timeouts
(`device.rs` lines 37-42): the flag `default_timeout_applied` and the
read timeout currently configured on the serial port. -/
structure TransportState where
  default_timeout_applied : Bool
  current_timeout : Nat
deriving DecidableEq

/-- Embedding of `Device::receive_line_raw` (`device.rs` lines 89-110) at
byte level.  `input` is the pending inbound byte stream; bytes are taken
one at a time.  Before each byte the accumulated buffer is checked
against `limit`; a newline byte (10) completes the line and returns
immediately; after any other successfully read byte, the source re-runs
`if !self.default_timeout_applied { self.port.set_timeout(timeout) }` —
note that the source never sets the flag itself. -/
def receive_line_raw (defaultTimeout limit : Nat) :
    List Nat → List Nat → TransportState → Except DevFailure (List Nat × List Nat × TransportState)
  | input, buffer, st =>
    if limit < buffer.length then .error (.lineTooLong limit)
    else
      match input with
      | [] => .error .timeout
      | b :: rest =>
        if b = 10 then .ok (buffer, rest, st)
        else
          receive_line_raw defaultTimeout limit rest (buffer ++ [b])
            (if st.default_timeout_applied then st
             else { st with current_timeout := defaultTimeout })

/-- Failures of the synchronization handshake `Device::sync` (`device.rs`
lines 147-172): a failure propagated from the raw line read (an I/O
timeout or the line-length limit), or the dedicated deadline failure
`anyhow!("Sync timeout exceeded")`. -/
inductive SyncError where
  | raw : DevFailure → SyncError
  | deadline : SyncError
deriving DecidableEq

/-- Embedding of `is_timeout` (`device.rs` lines 44-50) on a handshake
failure: only an error whose root cause is an I/O read timeout counts;
the `anyhow!` string errors (line-too-long, sync deadline) do not. -/
def is_timeout : SyncError → Bool
  | .raw .timeout => true
  | _ => false

/-- Embedding of the receive loop of `Device::sync` (`device.rs` lines
157-171) after the ping has been sent.  `token` is the payload of the
emitted ping (the decimal microsecond text), `deadline` the instant
`now + sync_timeout`.  The script pairs each completed raw line with the
wall-clock instant at which it was received; raw reads bypass the
`#`/`!` classification and use the fixed limit 64.  A line is accepted
exactly when its first byte is `p` (112) and the remainder equals the
token; otherwise, if the line arrived after the deadline the handshake
fails with the deadline error, and otherwise the line is discarded and
reading continues. -/
def sync (token : List Nat) (deadline : Nat) :
    List (List Nat × Nat) → Except SyncError Unit
  | [] => .error (.raw .timeout)
  | (l, t) :: rest =>
    if 64 < l.length then .error (.raw (.lineTooLong 64))
    else if l.head? = some 112 ∧ l.drop 1 = token then .ok ()
    else if deadline < t then .error .deadline
    else sync token deadline rest

/-- Failures of `Device::check` (`device.rs` lines 174-193): a failure of
the retried synchronization, a classifier failure while reading the `V`
response, or a response that does not start with `VROME`. -/
inductive CheckError where
  | syncFailed : SyncError → CheckError
  | recv : DevFailure → CheckError
  | badVersion : List Nat → CheckError
deriving DecidableEq

/-- `VROME` prefix test of `device.rs` line 185 (`V` = 86, `R` = 82,
`O` = 79, `M` = 77, `E` = 69). -/
def startsWithVROME (r : List Nat) : Bool :=
  [86, 82, 79, 77, 69].isPrefixOf r

/-- Embedding of `Device::check` (`device.rs` lines 174-193),
parametrized by the outcomes of the two possible `sync` invocations
(`sync` itself is modelled above) and by the line script consumed by the
`V` exchange.  The boolean in the result records whether the version
query `V\n` was sent on the wire.  Faithful to the source's
`if let Err(e) = self.sync() { if is_timeout(&e) { retry? } }`: a second
attempt happens only after a read-timeout failure, a failure of that
second attempt is returned, and a first-attempt failure that is not a
read timeout is dropped, after which execution falls through to the
version query. -/
def check (sync1 sync2 : Except SyncError Unit) (vscript : List (List Nat)) :
    Except CheckError Unit × Bool :=
  match sync1 with
  | .error e =>
    if is_timeout e then
      match sync2 with
      | .error e2 => (.error (.syncFailed e2), false)
      | .ok _ =>
        match receive 24 vscript with
        | .error e3 => (.error (.recv e3), true)
        | .ok (r, _) =>
          if startsWithVROME r then (.ok (), true) else (.error (.badVersion r), true)
    else
      match receive 24 vscript with
      | .error e3 => (.error (.recv e3), true)
      | .ok (r, _) =>
        if startsWithVROME r then (.ok (), true) else (.error (.badVersion r), true)
  | .ok _ =>
    match receive 24 vscript with
    | .error e3 => (.error (.recv e3), true)
    | .ok (r, _) =>
      if startsWithVROME r then (.ok (), true) else (.error (.badVersion r), true)

/-- One transferred segment, as `DataChunk` in `data_ops.rs` lines 14-17:
a 16-bit start address and the bytes transferred from that address. -/
structure DataChunk where
  offset : Nat
  data : List Nat
deriving DecidableEq

/-- Decode failures for a read response (`data_ops.rs` lines 45-72), each
constructor carrying exactly the data the source formats into the error:
`badPrefix` names the offending response, `badLength` the received and
expected payload lengths, `parseFailed` nothing beyond the fact (the
source wraps the underlying UTF-8/integer parse error). -/
inductive ReadDecodeError where
  | badPrefix : List Nat → ReadDecodeError
  | badLength : Nat → Nat → ReadDecodeError
  | parseFailed : ReadDecodeError
deriving DecidableEq

/-- Parse the hex pairs of a read-response payload: Rust
`chunks(2).map(|c| u8::from_str_radix(from_utf8(c)?, 16)).collect()`. -/
def parsePairs : List (List Nat) → Option (List Nat)
  | [] => some []
  | c :: cs =>
    match rustU8FromStrRadix16 c, parsePairs cs with
    | some v, some vs => some (v :: vs)
    | _, _ => none

/-- List split into consecutive chunks of at most `b` elements, as Rust's
`slice::chunks(b)` (`data_ops.rs` lines 65 and 88).  The first argument
after `b` is structural fuel; `chunks_list` below instantiates it with
the list length, which suffices whenever `b ≥ 1` (Rust's `chunks` panics
on `b = 0`, which cannot happen: the sources take the size from a
`NonZeroU8`). -/
def chunks_go (b : Nat) : Nat → List Nat → List (List Nat)
  | 0, _ => []
  | _, [] => []
  | fuel + 1, d :: ds => (d :: ds).take b :: chunks_go b fuel ((d :: ds).drop b)

/-- Rust `slice::chunks(b)` on a byte list (see `chunks_go`). -/
def chunks_list (b : Nat) (l : List Nat) : List (List Nat) :=
  chunks_go b l.length l

/-- Embedding of the response decoding of `read_data` (`data_ops.rs`
lines 45-73) for a segment of `segLen` bytes: the response must start
with `R` (82) — otherwise the error names the response —, its payload
(everything after the `R`) must have length exactly `2 * segLen` —
otherwise the error names the received and the expected length —, and
each consecutive pair of payload bytes is handed to
`u8::from_str_radix(_, 16)`. -/
def decodeReadResponse (resp : List Nat) (segLen : Nat) : Except ReadDecodeError (List Nat) :=
  match resp with
  | 82 :: payload =>
    if payload.length ≠ 2 * segLen then .error (.badLength payload.length (2 * segLen))
    else
      match parsePairs (chunks_list 2 payload) with
      | some bytes => .ok bytes
      | none => .error .parseFailed
  | _ => .error (.badPrefix resp)

/-- Rust `usize::div_ceil` as implemented in the standard library:
quotient plus one if the remainder is non-zero. -/
def rustDivCeil (a b : Nat) : Nat :=
  a / b + (if a % b = 0 then 0 else 1)

/-- `Device::memory_size` (`device.rs` lines 207-210): always
`Ok(0x10000)`. -/
def memory_size : Nat := 0x10000

/-- Number of read segments as computed by `data_ops.rs` line 34:
`size.div_ceil(buffer_size) as u16` — note the truncating cast to
16 bits. -/
def num_segments (size b : Nat) : Nat :=
  rustDivCeil size b % 65536

/-- Read command frame `R{:04X}{:02X}\n` (`data_ops.rs` line 42):
`R` = 82, four hex address digits, two hex length digits, newline. -/
def read_command (addr len : Nat) : List Nat :=
  82 :: (hex4 addr ++ hex2 len ++ [10])

/-- Failures of the read pipeline: the bounds failure of `data_ops.rs`
lines 30-32, a classifier failure while receiving a response, or a
response decode failure. -/
inductive ReadError where
  | outOfRange : ReadError
  | recv : DevFailure → ReadError
  | decode : ReadDecodeError → ReadError
deriving DecidableEq

/-- Segment loop of `read_data` (`data_ops.rs` lines 36-74), driven to
completion as the CLI driver does (`main.rs` collects every chunk of the
lazy iterator in order, stopping at the first failure).  `remaining`
counts the segments still to fetch (starting at `num_segments`), `i` is
the current segment number.  For segment `i` the start address is
`offset + i * b`, the length `min b (size - i * b)`; one command is sent
and one classified response is received (limit `2 + 2 * len` as at
`data_ops.rs` line 43) and decoded.  Returns the chunk list (or the
first failure) together with the list of commands sent. -/
def read_go (offset size b : Nat) :
    Nat → Nat → List (List Nat) → Except ReadError (List DataChunk) × List (List Nat)
  | 0, _, _ => (.ok [], [])
  | remaining + 1, i, script =>
    let start := offset + i * b
    let len := min b (size - i * b)
    let cmd := read_command start len
    match receive (2 + len * 2) script with
    | .error e => (.error (.recv e), [cmd])
    | .ok (r, rest) =>
      match decodeReadResponse r len with
      | .error e => (.error (.decode e), [cmd])
      | .ok bytes =>
        let out := read_go offset size b remaining (i + 1) rest
        (match out.1 with
         | .ok cs => .ok (⟨start, bytes⟩ :: cs)
         | .error e => .error e,
         cmd :: out.2)

/-- Embedding of `read_data` (`data_ops.rs` lines 26-75): reject a
request whose last byte lies outside the device address space before any
wire traffic (`size + offset > memory_size`), then fetch
`num_segments size b` segments.  The result carries the list of commands
sent on the wire. -/
def read_data (offset size b : Nat) (script : List (List Nat)) :
    Except ReadError (List DataChunk) × List (List Nat) :=
  if memory_size < size + offset then (.error .outOfRange, [])
  else read_go offset size b (num_segments size b) 0 script

/-- Hex encoding of a write payload, one `{:02X}` per byte
(`data_ops.rs` lines 92-94). -/
def encodeHexBytes : List Nat → List Nat
  | [] => []
  | b :: bs => hex2 b ++ encodeHexBytes bs

/-- Write command frame `W{:04X}` + payload hex + `\n` (`data_ops.rs`
lines 90-96), `W` = 87. -/
def write_command (addr : Nat) (chunk : List Nat) : List Nat :=
  87 :: (hex4 addr ++ encodeHexBytes chunk ++ [10])

/-- Expected write response `W{:04X}{:04X}` (`data_ops.rs` line 100):
start address and end address, the latter computed with wrapping 16-bit
addition. -/
def write_expected_response (addr endAddr : Nat) : List Nat :=
  87 :: (hex4 addr ++ hex4 endAddr)

/-- Failures of `write_data`: a classifier failure while receiving, or a
response differing from the expected one — the error names both the
received and the expected response (`data_ops.rs` lines 102-108). -/
inductive WriteError where
  | recv : DevFailure → WriteError
  | unexpectedResponse : List Nat → List Nat → WriteError
deriving DecidableEq

/-- Sub-chunk loop of `write_data` (`data_ops.rs` lines 86-111).  The
first numeric argument is structural fuel, instantiated with the data
length (sufficient whenever `b ≥ 1`).  For each sub-chunk (`take b`) at
the cursor `addr`: the end address is `(addr + chunkLen) % 2^16`
(`u16::wrapping_add`), one command is sent, one classified response
received (limit 16, `data_ops.rs` line 99) and compared against the
expected response; on mismatch the loop fails naming received and
expected, otherwise the cursor advances to the end address.  Returns the
result together with the commands sent. -/
def write_go (b : Nat) :
    Nat → Nat → List Nat → List (List Nat) → Except WriteError Unit × List (List Nat)
  | 0, _, _, _ => (.ok (), [])
  | _, _, [], _ => (.ok (), [])
  | fuel + 1, addr, d :: ds, script =>
    let chunk := (d :: ds).take b
    let endAddr := (addr + chunk.length) % 65536
    let cmd := write_command addr chunk
    match receive 16 script with
    | .error e => (.error (.recv e), [cmd])
    | .ok (r, rest) =>
      if r = write_expected_response addr endAddr then
        let out := write_go b fuel endAddr ((d :: ds).drop b) rest
        (out.1, cmd :: out.2)
      else (.error (.unexpectedResponse r (write_expected_response addr endAddr)), [cmd])

/-- Embedding of `write_data` (`data_ops.rs` lines 82-114): write the
payload of the request's chunk in sub-chunks of at most `b` bytes,
starting at the request's offset. -/
def write_data (offset : Nat) (data : List Nat) (b : Nat) (script : List (List Nat)) :
    Except WriteError Unit × List (List Nat) :=
  write_go b data.length offset data script

/-- Start addresses and command frames of a write, one per sub-chunk,
with the cursor advancing by the sub-chunk length modulo 2^16. -/
def write_cmds (addr : Nat) : List (List Nat) → List (List Nat)
  | [] => []
  | c :: cs => write_command addr c :: write_cmds ((addr + c.length) % 65536) cs

/-- Expected responses of a write, one per sub-chunk, in cursor order. -/
def write_resps (addr : Nat) : List (List Nat) → List (List Nat)
  | [] => []
  | c :: cs =>
    write_expected_response addr ((addr + c.length) % 65536)
      :: write_resps ((addr + c.length) % 65536) cs

/-- Outcome of the verification pass: all chunks matched; a mismatch
(`anyhow!("Verification failed in range {:04X}:{:04X}")` with the
computed range); or an out-of-bounds slice index `data[lo..hi]` with
`hi > data.len()`, which in Rust is a panic. -/
inductive VerifyResult where
  | passed : VerifyResult
  | failed : Nat → Nat → VerifyResult
  | sliceOutOfBounds : Nat → Nat → Nat → VerifyResult
deriving DecidableEq

/-- Embedding of the verification loop of `main.rs` lines 305-324 over
the chunks returned by the verification read.  Faithful to the source:
the index into the originally written buffer is
`chunk_offset = offset.wrapping_add(read_chunk.offset)` — the write's
base offset PLUS the chunk's absolute start address, reduced modulo
2^16 — and the compared slice is
`data[chunk_offset .. chunk_offset + read_chunk.data.len()]`.  A slice
end past the buffer length is the Rust panic, modelled as
`sliceOutOfBounds`; a byte mismatch stops the loop with the computed
range; otherwise the loop continues with the next chunk. -/
def verifyChunks (offset : Nat) (data : List Nat) : List DataChunk → VerifyResult
  | [] => .passed
  | c :: rest =>
    let co := (offset + c.offset) % 65536
    if data.length < co + c.data.length then
      .sliceOutOfBounds co (co + c.data.length) data.length
    else if c.data = (data.drop co).take c.data.length then verifyChunks offset data rest
    else .failed co (co + c.data.length)

/-! Theorems.  Each claim of the specification audit is settled by one
theorem below; supporting lemmas are shared. -/

/-- C4: a read request whose last byte lies outside the device address
space (`offset + size > 0x10000`) fails with the out-of-range error
before any wire traffic: for every response script, the result is the
bounds error and the list of sent commands is empty, so no send and no
receive is performed. -/
theorem read_data_out_of_range (offset size b : Nat) (script : List (List Nat))
    (h : memory_size < offset + size) :
    read_data offset size b script = (.error .outOfRange, []) := by
  unfold read_data
  rw [if_pos (by omega)]

/-- Witness for `read_data_out_of_range` at the spec's own example:
offset `0xFFFE`, size `4`. -/
theorem read_data_out_of_range_witness :
    read_data 65534 4 31 [] = (.error .outOfRange, []) :=
  read_data_out_of_range 65534 4 31 [] (by decide)

/-- C1 (failing input): the valid request offset `0`, size `0x10000`,
segment size `1` — the whole address space, one byte per segment — makes
`size.div_ceil(segment_size) = 65536` overflow the `as u16` cast at
`data_ops.rs` line 34, so `num_segments` is `0` and `read_data` yields
no chunks and sends no commands at all, instead of the
`ceil(size / segment_size) = 65536` tiling chunks the claim requires. -/
theorem read_data_segment_count_truncated :
    read_data 0 65536 1 [] = (.ok [], []) ∧
    rustDivCeil 65536 1 = 65536 ∧
    num_segments 65536 1 = 0 :=
  ⟨rfl, rfl, rfl⟩

/-- C2 (failing input): write `[0xAB]` at offset `0x0100` and verify
against a device that returns exactly the written byte (response `RAB`).
The verification read returns the chunk tagged `0x0100`, but the
verification pass of `main.rs` line 314 computes the buffer index with
`offset.wrapping_add(read_chunk.offset)` — base offset PLUS absolute
chunk address, `0x0200` — instead of the claimed chunk address MINUS
base offset, and the resulting slice `data[0x200..0x201]` is out of
bounds of the 1-byte buffer (a Rust panic).  At offset `0` the same
comparison passes, pinning the failure to the offset arithmetic. -/
theorem verify_uses_wrapping_add_not_sub :
    read_data 256 1 31 [[82, 65, 66]] = (.ok [⟨256, [171]⟩], [read_command 256 1]) ∧
    verifyChunks 256 [171] [⟨256, [171]⟩] = .sliceOutOfBounds 512 513 1 ∧
    verifyChunks 0 [171] [⟨0, [171]⟩] = .passed :=
  ⟨rfl, rfl, rfl⟩

/-- C10 (failing input): for the valid verified write of `[1, 2]` at
offset `0x0200`, the index range the verification pass computes for the
returned chunk is `[0x0400, 0x0402)`, which is not within the bounds of
the 2-byte written buffer: the byte comparison performs an out-of-bounds
slice access. -/
theorem verify_index_range_out_of_bounds :
    read_data 512 2 31 [[82, 48, 49, 48, 50]] = (.ok [⟨512, [1, 2]⟩], [read_command 512 2]) ∧
    verifyChunks 512 [1, 2] [⟨512, [1, 2]⟩] = .sliceOutOfBounds 1024 1026 2 :=
  ⟨rfl, rfl⟩

/-- C6 (failing input): the response `R+A` to a read of a 1-byte segment
contains the byte `+` (43), which is not a hex digit, yet it decodes
successfully to the byte `0x0A`: `u8::from_str_radix` accepts an
optional leading sign, so the response is silently decoded instead of
yielding a decode error. -/
theorem decode_read_response_accepts_plus_sign :
    decodeReadResponse [82, 43, 65] 1 = .ok [10] ∧ hexDigitVal 43 = none :=
  ⟨rfl, rfl⟩

/-- C9 (failing input): one full successful I/O call —
`receive_line_raw` reading the line `A` — starting from the freshly
opened state (flag unset, initial timeout 2000).  The port timeout does
switch to the steady-state value 1000, but `default_timeout_applied`
is still `false` afterwards: the source never assigns the flag, so it
never becomes true and `set_timeout` is re-applied after every byte. -/
theorem default_timeout_applied_never_set :
    receive_line_raw 1000 64 [65, 10] [] ⟨false, 2000⟩ =
      .ok ([65], [], ⟨false, 1000⟩) :=
  rfl

/-- C3 (failing input): the first synchronization attempt fails with the
dedicated sync-deadline error, which `is_timeout` classifies as not a
read timeout.  `Device::check` then drops the failure — the second
attempt (here itself a failure, showing it is never consulted) does not
run — and proceeds to send the version query, returning success when the
device answers `VROME`, instead of failing the check. -/
theorem check_proceeds_after_non_timeout_sync_failure :
    check (.error .deadline) (.error (.raw .timeout)) [[86, 82, 79, 77, 69]] = (.ok (), true) ∧
    is_timeout .deadline = false :=
  ⟨rfl, rfl⟩



/-- Line shapes that the classifier consumes without returning: empty
lines and `#` debug lines. -/
def isIgnoredLine : List Nat → Bool
  | [] => true
  | c :: _ => c == 35

/-- Definitional unfolding of one `receive` step. -/
theorem receive_cons (limit : Nat) (l : List Nat) (rest : List (List Nat)) :
    receive limit (l :: rest) =
      if limit < l.length then .error (.lineTooLong limit)
      else
        match l with
        | [] => receive limit rest
        | c :: tail =>
          if c = 35 then receive limit rest
          else if c = 33 then .error (.deviceError (rustTrim tail))
          else .ok (c :: tail, rest) := rfl

theorem receive_classification (limit : Nat) (lines : List (List Nat))
    (h : ∀ l ∈ lines, l.length ≤ limit) :
    receive limit lines =
      (match lines.dropWhile isIgnoredLine with
       | [] => .error .timeout
       | l :: rest =>
         if l.head? = some 33 then .error (.deviceError (rustTrim (l.drop 1)))
         else .ok (l, rest)) ∧
    (∀ l rest, receive limit lines = .ok (l, rest) →
       l ≠ [] ∧ l.head? ≠ some 35 ∧ l.head? ≠ some 33) := by
  induction lines with
  | nil =>
    refine ⟨rfl, ?_⟩
    intro l rest hok
    simp [receive] at hok
  | cons a rest ih =>
    have ha : a.length ≤ limit := h a (List.mem_cons_self a rest)
    have hrest : ∀ l ∈ rest, l.length ≤ limit := fun l hl => h l (List.mem_cons_of_mem a hl)
    obtain ⟨ih1, ih2⟩ := ih hrest
    have hnl : ¬ limit < a.length := Nat.not_lt.mpr ha
    cases a with
    | nil =>
      have hstep : receive limit ([] :: rest) = receive limit rest := by
        rw [receive_cons, if_neg hnl]
      have hdrop : ([] :: rest).dropWhile isIgnoredLine = rest.dropWhile isIgnoredLine := by
        simp [List.dropWhile_cons, isIgnoredLine]
      refine ⟨?_, ?_⟩
      · rw [hstep, hdrop]; exact ih1
      · intro l r hok; rw [hstep] at hok; exact ih2 l r hok
    | cons c tail =>
      by_cases h35 : c = 35
      · subst h35
        have hstep : receive limit ((35 :: tail) :: rest) = receive limit rest := by
          rw [receive_cons, if_neg hnl]
          rfl
        have hdrop : ((35 :: tail) :: rest).dropWhile isIgnoredLine
            = rest.dropWhile isIgnoredLine := by
          simp [List.dropWhile_cons, isIgnoredLine]
        refine ⟨?_, ?_⟩
        · rw [hstep, hdrop]; exact ih1
        · intro l r hok; rw [hstep] at hok; exact ih2 l r hok
      · have hdrop : ((c :: tail) :: rest).dropWhile isIgnoredLine = (c :: tail) :: rest := by
          simp [List.dropWhile_cons, isIgnoredLine, h35]
        by_cases h33 : c = 33
        · subst h33
          have hstep : receive limit ((33 :: tail) :: rest)
              = .error (.deviceError (rustTrim tail)) := by
            rw [receive_cons, if_neg hnl]
            rfl
          refine ⟨?_, ?_⟩
          · rw [hstep, hdrop]
            rfl
          · intro l r hok; rw [hstep] at hok; simp at hok
        · have hstep : receive limit ((c :: tail) :: rest) = .ok (c :: tail, rest) := by
            rw [receive_cons, if_neg hnl]
            show (if c = 35 then receive limit rest
              else if c = 33 then .error (.deviceError (rustTrim tail))
              else .ok (c :: tail, rest)) = .ok (c :: tail, rest)
            rw [if_neg h35, if_neg h33]
          refine ⟨?_, ?_⟩
          · rw [hstep, hdrop]
            have hif : ((c :: tail).head? = some 33) = False := by
              simp [h33]
            simp [hif]
            rw [if_neg h33]
          · intro l r hok
            rw [hstep] at hok
            simp only [Except.ok.injEq, Prod.mk.injEq] at hok
            obtain ⟨rfl, rfl⟩ := hok
            exact ⟨List.cons_ne_nil c tail, by simp [h35], by simp [h33]⟩

theorem receive_classification_witness :
    receive 8 [[35, 120], [], [82, 65, 66], [33, 101]] = .ok ([82, 65, 66], [[33, 101]]) := by
  have h := (receive_classification 8 [[35, 120], [], [82, 65, 66], [33, 101]] (by decide)).1
  rw [h]
  rfl

/-- Definitional unfolding of one `sync` step. -/
theorem sync_cons (token : List Nat) (deadline : Nat) (l : List Nat) (t : Nat)
    (rest : List (List Nat × Nat)) :
    sync token deadline ((l, t) :: rest) =
      if 64 < l.length then .error (.raw (.lineTooLong 64))
      else if l.head? = some 112 ∧ l.drop 1 = token then .ok ()
      else if deadline < t then .error .deadline
      else sync token deadline rest := rfl

/-- A raw line passes the handshake's reply test — first byte `p` (112)
and remainder equal to the emitted token — exactly when it is the line
`p` followed by exactly the token. -/
theorem sync_match_iff (l token : List Nat) :
    (l.head? = some 112 ∧ l.drop 1 = token) ↔ l = 112 :: token := by
  cases l with
  | nil => simp
  | cons c tl => simp [List.head?]

/-- C8: characterization of the synchronization receive loop with token
`T` over a timestamped raw-line script (every line within the raw limit
64).  First part: the handshake succeeds exactly when some received line
equals `p` followed by exactly `T` and every earlier line both differs
from it (and is discarded, reading continuing) and arrived no later than
the sync deadline.  Second part: if a non-matching line arrives after the
deadline (all earlier lines discarded in time), the handshake fails with
the dedicated sync-timeout error. -/
theorem sync_claim (token : List Nat) (deadline : Nat) (lines : List (List Nat × Nat))
    (hlen : ∀ p ∈ lines, (p.1).length ≤ 64) :
    (sync token deadline lines = .ok () ↔
      ∃ pre p post, lines = pre ++ p :: post ∧ p.1 = 112 :: token ∧
        ∀ q ∈ pre, q.1 ≠ 112 :: token ∧ q.2 ≤ deadline) ∧
    (∀ pre p post, lines = pre ++ p :: post → p.1 ≠ 112 :: token → deadline < p.2 →
      (∀ q ∈ pre, q.1 ≠ 112 :: token ∧ q.2 ≤ deadline) →
      sync token deadline lines = .error .deadline) := by
  induction lines with
  | nil =>
    constructor
    · constructor
      · intro hok; simp [sync] at hok
      · rintro ⟨pre, p, post, hsplit, -, -⟩
        exact absurd hsplit (by simp)
    · intro pre p post hsplit
      exact absurd hsplit (by simp)
  | cons hd rest ih =>
    obtain ⟨l, t⟩ := hd
    have hl : l.length ≤ 64 := hlen (l, t) (List.mem_cons_self _ _)
    have hrest : ∀ p ∈ rest, (p.1).length ≤ 64 := fun p hp => hlen p (List.mem_cons_of_mem _ hp)
    obtain ⟨ih1, ih2⟩ := ih hrest
    have hn64 : ¬ 64 < l.length := Nat.not_lt.mpr hl
    by_cases hm : l = 112 :: token
    · have hstep : sync token deadline ((l, t) :: rest) = .ok () := by
        rw [sync_cons, if_neg hn64, if_pos ((sync_match_iff l token).mpr hm)]
      constructor
      · rw [hstep]
        constructor
        · intro _
          exact ⟨[], (l, t), rest, rfl, hm, by simp⟩
        · intro _; rfl
      · intro pre p post hsplit hne hdl hpre
        cases pre with
        | nil =>
          simp only [List.nil_append, List.cons.injEq] at hsplit
          obtain ⟨h1, -⟩ := hsplit
          rw [← h1] at hne
          exact absurd hm hne
        | cons q pre2 =>
          simp only [List.cons_append, List.cons.injEq] at hsplit
          obtain ⟨h1, -⟩ := hsplit
          have h2 := (hpre q (List.mem_cons_self _ _)).1
          rw [← h1] at h2
          exact absurd hm h2
    · have hcond : ¬ (l.head? = some 112 ∧ l.drop 1 = token) :=
        fun hc => hm ((sync_match_iff l token).mp hc)
      by_cases ht : deadline < t
      · have hstep : sync token deadline ((l, t) :: rest) = .error .deadline := by
          rw [sync_cons, if_neg hn64, if_neg hcond, if_pos ht]
        constructor
        · rw [hstep]
          constructor
          · intro h2; exact absurd h2 (by simp)
          · rintro ⟨pre, p, post, hsplit, hp, hpre⟩
            cases pre with
            | nil =>
              simp only [List.nil_append, List.cons.injEq] at hsplit
              obtain ⟨h1, -⟩ := hsplit
              rw [← h1] at hp
              exact absurd hp hm
            | cons q pre2 =>
              simp only [List.cons_append, List.cons.injEq] at hsplit
              obtain ⟨h1, -⟩ := hsplit
              have h2 := (hpre q (List.mem_cons_self _ _)).2
              rw [← h1] at h2
              exact absurd ht (Nat.not_lt.mpr h2)
        · intro pre p post hsplit hne hdl hpre
          exact hstep
      · have hstep : sync token deadline ((l, t) :: rest) = sync token deadline rest := by
          rw [sync_cons, if_neg hn64, if_neg hcond, if_neg ht]
        have htle : t ≤ deadline := Nat.not_lt.mp ht
        constructor
        · rw [hstep, ih1]
          constructor
          · rintro ⟨pre, p, post, hsplit, hp, hpre⟩
            refine ⟨(l, t) :: pre, p, post, by rw [hsplit, List.cons_append], hp, ?_⟩
            intro q hq
            rcases List.mem_cons.mp hq with h1 | h1
            · rw [h1]
              exact ⟨hm, htle⟩
            · exact hpre q h1
          · rintro ⟨pre, p, post, hsplit, hp, hpre⟩
            cases pre with
            | nil =>
              simp only [List.nil_append, List.cons.injEq] at hsplit
              obtain ⟨h1, -⟩ := hsplit
              rw [← h1] at hp
              exact absurd hp hm
            | cons q pre2 =>
              simp only [List.cons_append, List.cons.injEq] at hsplit
              obtain ⟨-, h2⟩ := hsplit
              exact ⟨pre2, p, post, h2, hp,
                fun q2 hq2 => hpre q2 (List.mem_cons_of_mem _ hq2)⟩
        · intro pre p post hsplit hne hdl hpre
          rw [hstep]
          cases pre with
          | nil =>
            simp only [List.nil_append, List.cons.injEq] at hsplit
            obtain ⟨h1, -⟩ := hsplit
            rw [← h1] at hdl
            exact absurd hdl ht
          | cons q pre2 =>
            simp only [List.cons_append, List.cons.injEq] at hsplit
            obtain ⟨-, h2⟩ := hsplit
            exact ih2 pre2 p post h2 hne hdl
              (fun q2 hq2 => hpre q2 (List.mem_cons_of_mem _ hq2))

/-- Witness for `sync_claim`: with token `0` (byte 48) and deadline 10,
a script whose first line is a wrong-token reply received in time and
whose second line is the matching reply `p0` — the handshake succeeds. -/
theorem sync_claim_witness :
    sync [48] 10 [([112, 49], 3), ([112, 48], 20)] = .ok () := by
  have h := (sync_claim [48] 10 [([112, 49], 3), ([112, 48], 20)] (by decide)).1
  exact h.mpr ⟨[([112, 49], 3)], ([112, 48], 20), [], rfl, rfl, by decide⟩


/-- Fuel irrelevance for `chunks_go`: any fuel at least the list length
computes `chunks_list`, provided the chunk size is positive. -/
theorem chunks_go_eq (b : Nat) (hb : 0 < b) :
    ∀ fuel (l : List Nat), l.length ≤ fuel → chunks_go b fuel l = chunks_list b l := by
  intro fuel
  induction fuel using Nat.strong_induction_on with
  | _ fuel ih =>
    intro l hl
    cases fuel with
    | zero =>
      cases l with
      | nil => rfl
      | cons d ds => simp at hl
    | succ n =>
      cases l with
      | nil => rfl
      | cons d ds =>
        simp only [List.length_cons] at hl
        have hdl : ((d :: ds).drop b).length ≤ n := by
          simp only [List.length_drop, List.length_cons]
          omega
        have hdl2 : ((d :: ds).drop b).length ≤ ds.length := by
          simp only [List.length_drop, List.length_cons]
          omega
        show (d :: ds).take b :: chunks_go b n ((d :: ds).drop b) = chunks_list b (d :: ds)
        rw [ih n (by omega) _ hdl]
        show _ = (d :: ds).take b :: chunks_go b ds.length ((d :: ds).drop b)
        rw [ih ds.length (by omega) _ hdl2]

/-- Unfolding of `chunks_list` on a non-empty list (positive chunk
size): the head chunk is `take b`, the rest chunks the remainder. -/
theorem chunks_list_cons (b : Nat) (hb : 0 < b) (d : Nat) (ds : List Nat) :
    chunks_list b (d :: ds) = (d :: ds).take b :: chunks_list b ((d :: ds).drop b) := by
  show (d :: ds).take b :: chunks_go b ds.length ((d :: ds).drop b) = _
  rw [chunks_go_eq b hb ds.length _
    (by simp only [List.length_drop, List.length_cons]; omega)]

/-- The sub-chunks concatenate back to the original list. -/
theorem chunks_list_flatten (b : Nat) (hb : 0 < b) :
    ∀ (n : Nat) (l : List Nat), l.length ≤ n → (chunks_list b l).flatten = l := by
  intro n
  induction n with
  | zero =>
    intro l hl
    have h0 : l = [] := List.eq_nil_of_length_eq_zero (Nat.le_zero.mp hl)
    subst h0
    rfl
  | succ n ih =>
    intro l hl
    cases l with
    | nil => rfl
    | cons d ds =>
      simp only [List.length_cons] at hl
      rw [chunks_list_cons b hb, List.flatten_cons,
          ih ((d :: ds).drop b) (by simp only [List.length_drop, List.length_cons]; omega),
          List.take_append_drop]

/-- Every sub-chunk is non-empty and holds at most `b` bytes. -/
theorem chunks_list_mem (b : Nat) (hb : 0 < b) :
    ∀ (n : Nat) (l : List Nat), l.length ≤ n →
      ∀ c ∈ chunks_list b l, c ≠ [] ∧ c.length ≤ b := by
  intro n
  induction n with
  | zero =>
    intro l hl
    have h0 : l = [] := List.eq_nil_of_length_eq_zero (Nat.le_zero.mp hl)
    subst h0
    intro c hc
    exact absurd hc (by simp [chunks_list, chunks_go])
  | succ n ih =>
    intro l hl
    cases l with
    | nil =>
      intro c hc
      exact absurd hc (by simp [chunks_list, chunks_go])
    | cons d ds =>
      simp only [List.length_cons] at hl
      rw [chunks_list_cons b hb]
      intro c hc
      rcases List.mem_cons.mp hc with h1 | h1
      · subst h1
        constructor
        · cases b with
          | zero => exact absurd hb (by omega)
          | succ b2 => simp [List.take]
        · exact List.length_take_le b (d :: ds)
      · exact ih ((d :: ds).drop b)
          (by simp only [List.length_drop, List.length_cons]; omega) c h1

/-- The expected write response is a 9-byte data line starting with
`W` (87), so the classifier passes it through unchanged. -/
theorem receive_write_response (a e : Nat) (rest : List (List Nat)) :
    receive 16 (write_expected_response a e :: rest)
      = .ok (write_expected_response a e, rest) := rfl

/-- Success run of the write loop: when the device answers every
sub-chunk with exactly the expected response, the loop succeeds and
sends exactly the expected command sequence, the cursor advancing by
each sub-chunk length modulo 2^16. -/
theorem write_go_ok (b : Nat) (hb : 0 < b) :
    ∀ (fuel : Nat) (data : List Nat) (addr : Nat), data.length ≤ fuel →
      write_go b fuel addr data (write_resps addr (chunks_list b data)) =
        (.ok (), write_cmds addr (chunks_list b data)) := by
  intro fuel
  induction fuel with
  | zero =>
    intro data addr h
    have h0 : data = [] := List.eq_nil_of_length_eq_zero (Nat.le_zero.mp h)
    subst h0
    rfl
  | succ n ih =>
    intro data addr h
    cases data with
    | nil => rfl
    | cons d ds =>
      simp only [List.length_cons] at h
      rw [chunks_list_cons b hb]
      simp only [write_resps, write_cmds, write_go, receive_write_response]
      rw [if_pos trivial]
      rw [ih ((d :: ds).drop b) ((addr + ((d :: ds).take b).length) % 65536)
          (by simp only [List.length_drop, List.length_cons]; omega)]

/-- A non-empty data line (not `#`, not `!`, within the limit) passes the
classifier through unchanged. -/
theorem receive_data_line (limit : Nat) (r : List Nat) (rest : List (List Nat))
    (hlim : r.length ≤ limit) (hne : r ≠ [])
    (h35 : r.head? ≠ some 35) (h33 : r.head? ≠ some 33) :
    receive limit (r :: rest) = .ok (r, rest) := by
  cases r with
  | nil => exact absurd rfl hne
  | cons c tail =>
    have hc35 : c ≠ 35 := fun hc => h35 (by simp [hc])
    have hc33 : c ≠ 33 := fun hc => h33 (by simp [hc])
    rw [receive_cons, if_neg (Nat.not_lt.mpr hlim)]
    show (if c = 35 then receive limit rest
      else if c = 33 then .error (.deviceError (rustTrim tail))
      else .ok (c :: tail, rest)) = .ok (c :: tail, rest)
    rw [if_neg hc35, if_neg hc33]

/-- Mismatch run of the write loop: if the device answers the first `k`
sub-chunks with the expected responses and the next with any data line
differing from the expected one, the loop fails with an error naming the
received and the expected response. -/
theorem write_go_mismatch (b : Nat) (hb : 0 < b) :
    ∀ (fuel : Nat) (data : List Nat) (addr k : Nat) (r : List Nat) (rest : List (List Nat)),
      data.length ≤ fuel → k < (chunks_list b data).length →
      r.length ≤ 16 → r ≠ [] → r.head? ≠ some 35 → r.head? ≠ some 33 →
      r ≠ (write_resps addr (chunks_list b data)).getD k [] →
      (write_go b fuel addr data
        ((write_resps addr (chunks_list b data)).take k ++ r :: rest)).1 =
        .error (.unexpectedResponse r ((write_resps addr (chunks_list b data)).getD k [])) := by
  intro fuel
  induction fuel with
  | zero =>
    intro data addr k r rest h hk h16 hne h35 h33 hner
    have h0 : data = [] := List.eq_nil_of_length_eq_zero (Nat.le_zero.mp h)
    subst h0
    simp [chunks_list, chunks_go] at hk
  | succ n ih =>
    intro data addr k r rest h hk h16 hne h35 h33 hner
    cases data with
    | nil => simp [chunks_list, chunks_go] at hk
    | cons d ds =>
      simp only [List.length_cons] at h
      rw [chunks_list_cons b hb] at hk hner ⊢
      cases k with
      | zero =>
        simp only [write_resps] at hner ⊢
        simp only [List.getD_cons_zero] at hner ⊢
        simp only [List.take_zero, List.nil_append]
        simp only [write_go, receive_data_line 16 r rest h16 hne h35 h33]
        rw [if_neg hner]
      | succ k2 =>
        simp only [write_resps] at hner ⊢
        simp only [List.getD_cons_succ] at hner ⊢
        simp only [List.take_succ_cons, List.cons_append]
        simp only [write_go, receive_write_response]
        rw [if_pos trivial]
        exact ih ((d :: ds).drop b) ((addr + ((d :: ds).take b).length) % 65536) k2 r rest
          (by simp only [List.length_drop, List.length_cons]; omega)
          (by simpa using hk) h16 hne h35 h33 hner

/-- C7: for every positive segment size, `write_data` splits the payload
into consecutive non-empty sub-chunks of at most the segment size, in
address order (the sub-chunks concatenate back to the payload); when the
device answers each sub-chunk with exactly `W` + 4-hex start address +
4-hex end address (start plus sub-chunk length modulo 2^16), the write
succeeds and sends exactly one `W` + 4-hex address + hex payload command
per sub-chunk with the cursor advancing by each sub-chunk's length
modulo 2^16; and if the response to any sub-chunk is a data line
differing from the expected response, the write fails with an error
naming both the received and the expected response. -/
theorem write_data_claim (offset : Nat) (data : List Nat) (b : Nat) (hb : 0 < b) :
    (chunks_list b data).flatten = data ∧
    (∀ c ∈ chunks_list b data, c ≠ [] ∧ c.length ≤ b) ∧
    write_data offset data b (write_resps offset (chunks_list b data)) =
      (.ok (), write_cmds offset (chunks_list b data)) ∧
    (∀ k r rest, k < (chunks_list b data).length →
      r.length ≤ 16 → r ≠ [] → r.head? ≠ some 35 → r.head? ≠ some 33 →
      r ≠ (write_resps offset (chunks_list b data)).getD k [] →
      (write_data offset data b
        ((write_resps offset (chunks_list b data)).take k ++ r :: rest)).1 =
        .error (.unexpectedResponse r ((write_resps offset (chunks_list b data)).getD k []))) :=
  ⟨chunks_list_flatten b hb data.length data le_rfl,
   chunks_list_mem b hb data.length data le_rfl,
   write_go_ok b hb data.length data offset le_rfl,
   fun k r rest hk h16 hne h35 h33 hner =>
     write_go_mismatch b hb data.length data offset k r rest le_rfl hk h16 hne h35 h33 hner⟩

/-- Witness for `write_data_claim`: writing `[1, 2, 3]` at offset
`0xFFFE` with segment size 2 — the second sub-chunk wraps the cursor to
address 0 — against the expected responses succeeds with the expected
command sequence. -/
theorem write_data_claim_witness :
    write_data 65534 [1, 2, 3] 2 (write_resps 65534 (chunks_list 2 [1, 2, 3])) =
      (.ok (), write_cmds 65534 (chunks_list 2 [1, 2, 3])) :=
  (write_data_claim 65534 [1, 2, 3] 2 (by decide)).2.2.1

end Rome
